import Mathlib

/-!
Shallow embedding of the retrieval-augmented chatbot core
(document chunker, context assembler, confidence scorer,
conversation memory, RAG orchestrator) and proofs about it.

Python strings are modelled as `List Char`, Python floats as `ℚ`,
timestamps as `ℤ` (datetime arithmetic is exact), dictionaries as
association lists updated in insertion order (as Python dicts are).
-/

namespace ChatbotCore

/-! ## Python primitives -/

/-- Python whitespace characters stripped by `str.strip()`. -/
def isPySpace (c : Char) : Bool :=
  c = ' ' || c = '\t' || c = '\n' || c = '\r' || c = '\x0b' || c = '\x0c'

/-- Model of `s.strip()`: remove leading and trailing whitespace. -/
def pyStrip (l : List Char) : List Char :=
  ((l.dropWhile isPySpace).reverse.dropWhile isPySpace).reverse

/-- Whether `sub` occurs in `l` starting at index `i`. -/
def matchAt (l sub : List Char) (i : ℕ) : Bool :=
  decide (((l.drop i).take sub.length) = sub)

/-- Model of `s.rfind(sub, lo, hi)`: the largest index `i` with `lo ≤ i`,
`i + len(sub) ≤ min hi (len s)` and `s[i : i+len(sub)] = sub`;
`none` when there is no occurrence (Python returns `-1`). -/
def pyRfind (l sub : List Char) (lo hi : ℕ) : Option ℕ :=
  let hi' := min hi l.length
  ((List.range hi').filter
    (fun i => decide (lo ≤ i) && decide (i + sub.length ≤ hi') && matchAt l sub i)).getLast?

/-- Python slice `l[-m:]` (used by the history trim): for `m = 0` this is
`l[0:]`, the whole list; for `m > 0` it is the last `min m (len l)` elements. -/
def pySliceLastNeg (m : ℕ) (l : List α) : List α :=
  if m = 0 then l else l.drop (l.length - m)

/-! ## Chunker (`DocumentLoader._split_text`) -/

/-- The boundary-marker search of `_split_text`: for each marker
`'. '`, `'! '`, `'? '`, `'\n\n'` in order, the first one found by
`rfind` in `[start, endIdx)` snaps the cut to just after it;
otherwise the cut stays at `endIdx`. -/
def snapEnd (l : List Char) (start endIdx : ℕ) : ℕ :=
  match pyRfind l ['.', ' '] start endIdx with
  | some i => i + 2
  | none =>
    match pyRfind l ['!', ' '] start endIdx with
    | some i => i + 2
    | none =>
      match pyRfind l ['?', ' '] start endIdx with
      | some i => i + 2
      | none =>
        match pyRfind l ['\n', '\n'] start endIdx with
        | some i => i + 2
        | none => endIdx

/-- One iteration of the `while start < len(text)` loop of `_split_text`:
returns the stripped chunk cut from the current window and the next
`start` (`end - overlap`, clamped at 0 — ℕ subtraction is that clamp). -/
def splitStep (size overlap : ℕ) (l : List Char) (start : ℕ) : List Char × ℕ :=
  let e := start + size
  let e := if e < l.length then snapEnd l start e else e
  (pyStrip ((l.drop start).take (e - start)), e - overlap)

/-- The `while` loop of `_split_text`, with explicit fuel: `none` means the
loop had not finished after `fuel` iterations. -/
def splitGo (size overlap : ℕ) (l : List Char) :
    ℕ → ℕ → List (List Char) → Option (List (List Char))
  | 0, start, acc => if start < l.length then none else some acc.reverse
  | fuel + 1, start, acc =>
    if start < l.length then
      let p := splitStep size overlap l start
      splitGo size overlap l fuel p.2 (if p.1 = [] then acc else p.1 :: acc)
    else some acc.reverse

/-- Model of `DocumentLoader._split_text(text)`: texts no longer than `size` are
returned whole (as a single chunk); longer texts go through the window
loop. `none` means the loop ran out of fuel. -/
def splitText (size overlap : ℕ) (l : List Char) (fuel : ℕ) :
    Option (List (List Char)) :=
  if l.length ≤ size then some [l] else splitGo size overlap l fuel 0 []

/-- The text witnessing non-termination of `_split_text`:
`"a. bbbbbbbbbbbb"` (length 15). -/
def c1Text : List Char :=
  ['a', '.', ' ', 'b', 'b', 'b', 'b', 'b', 'b', 'b', 'b', 'b', 'b', 'b', 'b']

/-! ## Chunk metadata (`DocumentLoader.chunk_document`) -/

/-- One entry of a loaded document's `content` list: a text segment plus
its passthrough attributes (`page`, `paragraph`, `section` or `row`). -/
structure Part where
  text : List Char
  extra : List (String × ℕ)
deriving DecidableEq

/-- A loaded document as returned by `load_document`: the segment list and
the `type` tag (the loaders' extra fields such as `total_pages` play no
role in chunking). -/
structure Document where
  content : List Part
  type : String
deriving DecidableEq

/-- The metadata attached to a chunk by `chunk_document`: `source`,
`type`, `chunk_index` and the segment's passthrough attributes. -/
structure ChunkMeta where
  source : String
  type : String
  chunk_index : ℕ
  extra : List (String × ℕ)
deriving DecidableEq

/-- A chunk produced by `chunk_document`. -/
structure Chunk where
  content : List Char
  metadata : ChunkMeta
deriving DecidableEq

/-- The chunks produced from one text segment: `enumerate(text_chunks)`
numbers the segment's own chunks from 0. -/
def partChunks (doc : Document) (filename : String) (part : Part)
    (textChunks : List (List Char)) : List Chunk :=
  textChunks.enum.map (fun p =>
    { content := p.2
      metadata :=
        { source := filename, type := doc.type, chunk_index := p.1
          extra := part.extra } })

/-- Model of `DocumentLoader.chunk_document(document, filename)`: split each segment
and tag each chunk with its metadata. `none` when `_split_text` runs out of
fuel on some segment. -/
def chunkDocument (size overlap fuel : ℕ) (doc : Document) (filename : String) :
    Option (List Chunk) :=
  (doc.content.mapM (fun part =>
    (splitText size overlap part.text fuel).map (partChunks doc filename part))).map
    List.flatten

/-- A two-segment document (as a two-page PDF yields) whose segments both
fit in one chunk. -/
def c10Doc : Document :=
  { content :=
      [ { text := ['H', 'i'], extra := [("page", 1)] }
      , { text := ['Y', 'o'], extra := [("page", 2)] } ]
    type := "pdf" }

/-- The chunks `chunk_document` produces from `c10Doc`: both carry
`chunk_index = 0`, one per segment. -/
def c10Chunks : List Chunk :=
  [ { content := ['H', 'i']
      metadata := { source := "doc.pdf", type := "pdf", chunk_index := 0
                    extra := [("page", 1)] } }
  , { content := ['Y', 'o']
      metadata := { source := "doc.pdf", type := "pdf", chunk_index := 0
                    extra := [("page", 2)] } } ]

/-! ## RAG engine (`rag_engine.py`) -/

/-- Model of `dict.get(key, default)` on a string-valued metadata mapping. -/
def pyGet (m : List (String × String)) (key dflt : String) : String :=
  match m.find? (fun p => p.1 = key) with
  | some p => p.2
  | none => dflt

/-- A retrieval hit as formatted by `VectorStore.search`. -/
structure Hit where
  content : String
  metadata : List (String × String)
  distance : ℚ
  id : String
deriving DecidableEq

/-- The labeled block `_build_context` emits for the hit at 1-based rank
`i`: `"[Source i: source]\n" + content + "\n"`. -/
def sourceBlock (i : ℕ) (doc : Hit) : String :=
  "[Source " ++ toString i ++ ": " ++ pyGet doc.metadata "source" "Unknown"
    ++ "]\n" ++ doc.content ++ "\n"

/-- The `for i, doc in enumerate(retrieved_docs, 1)` loop of
`_build_context`: a block is kept when `doc.distance < 1 - threshold`. -/
def buildParts (thr : ℚ) : ℕ → List Hit → List String
  | _, [] => []
  | i, doc :: docs =>
    (if doc.distance < 1 - thr then [sourceBlock i doc] else [])
      ++ buildParts thr (i + 1) docs

/-- Model of `RAGEngine._build_context(retrieved_docs)` with the similarity
threshold made explicit (`settings.SIMILARITY_THRESHOLD` in the code). -/
def buildContext (thr : ℚ) (docs : List Hit) : String :=
  if docs = [] then "" else String.intercalate "\n---\n" (buildParts thr 1 docs)

/-- The claim's version of the filtering loop, keeping hits whose
similarity `1 - distance` is strictly above the threshold (the amended
condition; the spec's `≥` fails on the code). -/
def buildPartsBySimilarity (thr : ℚ) : ℕ → List Hit → List String
  | _, [] => []
  | i, doc :: docs =>
    (if thr < 1 - doc.distance then [sourceBlock i doc] else [])
      ++ buildPartsBySimilarity thr (i + 1) docs

/-- Round half to even at integer precision (Python's `round` on exact
values). -/
def roundHalfEven (q : ℚ) : ℤ :=
  if q - ⌊q⌋ < 1 / 2 then ⌊q⌋
  else if 1 / 2 < q - ⌊q⌋ then ⌊q⌋ + 1
  else if ⌊q⌋ % 2 = 0 then ⌊q⌋ else ⌊q⌋ + 1

/-- Python `round(x, 2)` idealised on exact rationals. -/
def round2 (q : ℚ) : ℚ := (roundHalfEven (100 * q) : ℚ) / 100

/-- Model of `RAGEngine._calculate_confidence(retrieved_docs)`: the rounded mean of
`1 - distance` over the first three hits; `0.0` on no hits. -/
def calcConfidence (docs : List Hit) : ℚ :=
  if docs = [] then 0
  else
    round2 (((docs.take 3).map (fun d => 1 - d.distance)).sum
      / ((docs.take 3).length : ℚ))

/-- One entry of `_format_sources`' output (`sectionVal` models the
`section` key, which is a reserved word here). -/
structure SourceEntry where
  source : String
  relevance : ℚ
  page : Option String
  sectionVal : Option String
deriving DecidableEq

/-- The body of `RAGEngine._format_sources`: first occurrence of each
source name wins. -/
def formatSourcesGo : List String → List Hit → List SourceEntry
  | _, [] => []
  | seen, doc :: docs =>
    let name := pyGet doc.metadata "source" "Unknown"
    if name ∈ seen then formatSourcesGo seen docs
    else
      { source := name, relevance := round2 (1 - doc.distance)
        page := (doc.metadata.find? (fun p => p.1 = "page")).map Prod.snd
        sectionVal := (doc.metadata.find? (fun p => p.1 = "section")).map Prod.snd }
        :: formatSourcesGo (name :: seen) docs

/-- Model of `RAGEngine._format_sources(retrieved_docs)`. -/
def formatSources (docs : List Hit) : List SourceEntry :=
  formatSourcesGo [] docs

/-- The exception values that can cross `RAGEngine.query`'s boundary: the
raw errors the search and generation steps raise, and the
`RAGQueryError(cause, question, elapsed)` wrapper the spec describes (no
such wrapper exists in the code — the constructor is here so the claim is
statable). -/
inductive PyExn where
  | searchError (msg : String)
  | generationError (msg : String)
  | ragQueryError (cause question : String) (elapsedSoFar : ℚ)
deriving DecidableEq

/-- Whether an exception value is the spec's `RAGQueryError` wrapper. -/
def PyExn.isRAGQueryError : PyExn → Bool
  | .ragQueryError _ _ _ => true
  | _ => false

/-- The generation collaborator's successful result
(`ClaudeClient.generate_response`'s dictionary). -/
structure GenOut where
  response : String
  model : String
  inputTokens : ℕ
  outputTokens : ℕ
deriving DecidableEq

/-- The dictionary `RAGEngine.query` returns on success. -/
structure QueryOut where
  answer : String
  sources : List SourceEntry
  retrieved_chunks : ℕ
  response_time : ℚ
  model_used : String
  tokens_used : ℕ × ℕ
  confidence : ℚ
deriving DecidableEq

/-- Model of `RAGEngine.query`: the search and generation steps are passed in as
their outcomes (they are external calls); `elapsed` is the wall-clock
time the code measures. The `try/except` re-raises whatever was raised,
so an error outcome of either step is returned unchanged. -/
def RAGEngine.query (userQuery : String) (searchResult : Except PyExn (List Hit))
    (generate : String → String → Except PyExn GenOut) (thr : ℚ) (elapsed : ℚ) :
    Except PyExn QueryOut :=
  match searchResult with
  | .error e => .error e
  | .ok docs =>
    let context := buildContext thr docs
    match generate userQuery context with
    | .error e => .error e
    | .ok g =>
      .ok { answer := g.response
            sources := formatSources docs
            retrieved_chunks := docs.length
            response_time := round2 elapsed
            model_used := g.model
            tokens_used := (g.inputTokens, g.outputTokens)
            confidence := calcConfidence docs }

/-- A fixed successful generation outcome, for concrete runs. -/
def genOk : String → String → Except PyExn GenOut :=
  fun _ _ => .ok { response := "ans", model := "m", inputTokens := 1, outputTokens := 2 }

/-- A hit whose similarity is exactly the 0.7 threshold. -/
def c3Hit : Hit :=
  { content := "body", metadata := [("source", "a.txt")], distance := 3 / 10, id := "h1" }

/-- Hits at similarities 0.9 and 0.5 (the spec's renumbering scenario). -/
def c7Hits : List Hit :=
  [ { content := "foo", metadata := [("source", "a.txt")], distance := 1 / 10, id := "h1" }
  , { content := "bar", metadata := [("source", "b.txt")], distance := 1 / 2, id := "h2" } ]

/-- A single hit at the extreme admissible distance 2. -/
def c2Hit : Hit :=
  { content := "far", metadata := [("source", "c.txt")], distance := 2, id := "h3" }

/-! ## Conversation memory (`memory.py`) -/

/-- A stored message. -/
structure Msg where
  role : String
  content : String
  timestamp : ℤ
  metadata : List (String × String)
deriving DecidableEq

/-- A session record. `user_id` is `none` both for `create_session(None)`
and for the minimal record `add_message` creates lazily. -/
structure Session where
  session_id : String
  user_id : Option String
  created_at : ℤ
  last_activity : ℤ
  is_active : Bool
deriving DecidableEq

/-- The memory manager's state: the `sessions` dict and the
`message_history` dict, as insertion-ordered association lists. -/
structure MemState where
  sessions : List (String × Session)
  history : List (String × List Msg)
deriving DecidableEq

/-- Dictionary lookup. -/
def getKey? (m : List (String × α)) (k : String) : Option α :=
  (m.find? (fun p => p.1 = k)).map Prod.snd

/-- Dictionary write: replace in place when the key exists, else append. -/
def setKey (m : List (String × α)) (k : String) (v : α) : List (String × α) :=
  match m with
  | [] => [(k, v)]
  | (k', v') :: rest =>
    if k' = k then (k, v) :: rest else (k', v') :: setKey rest k v

/-- Model of `dict.get(key, default)`. -/
def lookupD (m : List (String × α)) (k : String) (d : α) : α :=
  (getKey? m k).getD d

/-- Model of `ConversationMemory.add_message(session_id, role, content, metadata)`
at time `now`, with `maxHistory = settings.MAX_CONVERSATION_HISTORY`:
lazily create the session if unknown, append the message, update
`last_activity`, then trim to the Python slice `[-maxHistory*2:]` when the
history exceeds `maxHistory * 2` entries. -/
def addMessage (now : ℤ) (maxHistory : ℕ) (st : MemState)
    (sid role content : String) (md : List (String × String)) : MemState :=
  let sessions :=
    match getKey? st.sessions sid with
    | some _ => st.sessions
    | none =>
      setKey st.sessions sid
        { session_id := sid, user_id := none, created_at := now
          last_activity := now, is_active := true }
  let msg : Msg := { role := role, content := content, timestamp := now, metadata := md }
  let hist := lookupD st.history sid [] ++ [msg]
  let sessions :=
    match getKey? sessions sid with
    | some s => setKey sessions sid { s with last_activity := now }
    | none => sessions
  let hist := if maxHistory * 2 < hist.length then pySliceLastNeg (maxHistory * 2) hist else hist
  { sessions := sessions, history := setKey st.history sid hist }

/-- Python truthiness of the optional `limit` argument: `None` and `0`
are falsy. -/
def limitTruthy : Option ℕ → Bool
  | none => false
  | some n => n ≠ 0

/-- Model of `ConversationMemory.get_history(session_id, limit)`: reads through
`dict.get`, so the state comes back unchanged (second component). -/
def getHistory (st : MemState) (sid : String) (limit : Option ℕ) :
    List Msg × MemState :=
  let history := lookupD st.history sid []
  (if limitTruthy limit then pySliceLastNeg (limit.getD 0) history else history, st)

/-- Model of `ConversationMemory.get_formatted_history(session_id, limit)`:
the same messages projected to `(role, content)` pairs. -/
def getFormattedHistory (st : MemState) (sid : String) (limit : Option ℕ) :
    List (String × String) × MemState :=
  let p := getHistory st sid limit
  (p.1.map (fun m => (m.role, m.content)), p.2)

/-- The session ids `cleanup_expired_sessions` collects at time `now`:
those with `now - last_activity > timeout`. -/
def expiredSids (now timeout : ℤ) (st : MemState) : List String :=
  (st.sessions.filter (fun p => decide (timeout < now - p.2.last_activity))).map Prod.fst

/-- Model of `ConversationMemory.cleanup_expired_sessions()` at time `now` with
`timeout = settings.SESSION_TIMEOUT_MINUTES`: deletes each expired id from
both dicts. The Python function has no `return` statement, so its return
value — second component here — is always `None`, never a count. -/
def cleanupExpiredSessions (now timeout : ℤ) (st : MemState) :
    MemState × Option ℕ :=
  let ex := expiredSids now timeout st
  ({ sessions := st.sessions.filter (fun p => decide (p.1 ∉ ex))
     history := st.history.filter (fun p => decide (p.1 ∉ ex)) }, none)

/-- A state with one session idle for 100 minutes and one fresh session. -/
def c5State : MemState :=
  { sessions :=
      [ ("old", { session_id := "old", user_id := none, created_at := 0
                  last_activity := 0, is_active := true })
      , ("new", { session_id := "new", user_id := none, created_at := 90
                  last_activity := 90, is_active := true }) ]
    history :=
      [ ("old", [{ role := "user", content := "hi", timestamp := 0, metadata := [] }])
      , ("new", [{ role := "user", content := "yo", timestamp := 90, metadata := [] }]) ] }

/-- A state whose session `s1` holds two messages. -/
def c9State : MemState :=
  { sessions :=
      [ ("s1", { session_id := "s1", user_id := none, created_at := 0
                 last_activity := 5, is_active := true }) ]
    history :=
      [ ("s1", [ { role := "user", content := "q", timestamp := 1, metadata := [] }
               , { role := "assistant", content := "a", timestamp := 2, metadata := [] } ]) ] }

/-- The message appended in the C4 witness run. -/
def c4NewMsg : Msg :=
  { role := "user", content := "more", timestamp := 9, metadata := [] }

/-! ## Theorems -/

/-- On `c1Text` with `size = 10`, `overlap = 5`, the window loop started at
0 never leaves state `start = 0`, whatever the accumulator: snapping to the
early `'. '` puts the cut at 3 and `3 - 5` clamps back to 0. -/
lemma splitGo_c1Text_none (fuel : ℕ) :
    ∀ acc, splitGo 10 5 c1Text fuel 0 acc = none := by
  induction fuel with
  | zero => intro acc; rfl
  | succ n ih =>
    intro acc
    have hstep : splitStep 10 5 c1Text 0 = (['a', '.'], 0) := by decide
    simp only [splitGo, hstep]
    rw [if_pos (by decide : 0 < c1Text.length)]
    simp only [List.cons_ne_nil, if_neg, reduceCtorEq]
    exact ih _

/-- C1: the claim that the split loop strictly advances (and hence
terminates) for every `overlap < size` is violated by the code: on the
15-character text `"a. bbbbbbbbbbbb"` with `size = 10 > overlap = 5` the
boundary snap puts `cut_end` at 3, the next start `3 - 5` is clamped to 0
— equal to, not greater than, the previous start — and the loop never
finishes, for any number of iterations. -/
theorem c1_split_loop_never_terminates (fuel : ℕ) :
    splitText 10 5 c1Text fuel = none := by
  unfold splitText
  rw [if_neg (by decide : ¬ c1Text.length ≤ 10)]
  exact splitGo_c1Text_none fuel []

/-- C8 counterexample: on the empty text, `_split_text` takes the
`len(text) <= chunk_size` branch and returns `[""]` — one empty chunk —
not the empty sequence the claim states (config: default size 1000,
overlap 200). -/
theorem c8_empty_text_counterexample :
    splitText 1000 200 [] 0 = some [[]] ∧ splitText 1000 200 [] 0 ≠ some [] := by
  exact ⟨rfl, by decide⟩

/-- C8 amended: for the empty input text, `_split_text` returns the
one-element sequence containing the empty string, for every size, overlap
and fuel. -/
theorem c8_empty_text_single_empty_chunk (size overlap fuel : ℕ) :
    splitText size overlap [] fuel = some [[]] := by
  simp [splitText]

/-- C3 counterexample: a hit whose similarity `1 - distance` equals the
threshold 0.7 exactly is *excluded* by `_build_context` (the code keeps
`distance < 1 - threshold`, strict), so the context is empty — the claim
says it is included. -/
theorem c3_threshold_equality_excluded :
    1 - c3Hit.distance = 7 / 10 ∧
    buildParts (7 / 10) 1 [c3Hit] = [] ∧
    buildContext (7 / 10) [c3Hit] = "" := by
  have hd : c3Hit.distance = 3 / 10 := rfl
  have hcond : ¬(c3Hit.distance < 1 - 7 / 10) := by rw [hd]; norm_num
  have hparts : buildParts (7 / 10) 1 [c3Hit] = [] := by
    simp only [buildParts]
    rw [if_neg hcond]
    rfl
  refine ⟨by rw [hd]; norm_num, hparts, ?_⟩
  unfold buildContext
  rw [if_neg (by simp : ¬([c3Hit] = [])), hparts]
  rfl

/-- C3 amended: context assembly keeps exactly those hits whose similarity
`1 - distance` is strictly greater than the threshold; a hit at exactly
the threshold is dropped. -/
theorem c3_keeps_similarity_strictly_above_threshold :
    (∀ (thr : ℚ) (i : ℕ) (docs : List Hit),
        buildParts thr i docs = buildPartsBySimilarity thr i docs) ∧
    (∀ (thr : ℚ) (i : ℕ) (d : Hit), 1 - d.distance = thr → buildParts thr i [d] = []) := by
  constructor
  · intro thr i docs
    induction docs generalizing i with
    | nil => rfl
    | cons d ds ih =>
      simp only [buildParts, buildPartsBySimilarity, ih]
      have : d.distance < 1 - thr ↔ thr < 1 - d.distance := by constructor <;> intro <;> linarith
      rw [if_congr this rfl rfl]
  · intro thr i d h
    simp only [buildParts]
    rw [if_neg (by intro hlt; rw [← h] at hlt; linarith)]
    rfl

/-- C3 amended witness: at threshold 0.55 the 0.7-similarity hit `c3Hit`
is kept by both formulations, and a hit exactly at threshold 0.7 yields no
block. -/
theorem c3_keeps_similarity_strictly_above_threshold_witness :
    buildParts (11 / 20) 1 [c3Hit] = buildPartsBySimilarity (11 / 20) 1 [c3Hit] ∧
    buildParts (7 / 10) 4 [c3Hit] = [] :=
  ⟨c3_keeps_similarity_strictly_above_threshold.1 (11 / 20) 1 [c3Hit],
   c3_keeps_similarity_strictly_above_threshold.2 (7 / 10) 4 c3Hit
     (by rw [show c3Hit.distance = 3 / 10 from rfl]; norm_num)⟩

/-- C7: each kept hit's block is labeled with its 1-based rank in the full
input list (`enumerate(docs, 1)`), not its rank among survivors; in the
spec's scenario (similarities 0.9 and 0.5, threshold 0.7) only the first
block appears, labeled Source 1, and with the hits swapped the lone
survivor is labeled Source 2, not renumbered to 1. -/
theorem c7_source_labels_use_original_rank :
    (∀ (thr : ℚ) (i : ℕ) (docs : List Hit),
        buildParts thr i docs = (List.enumFrom i docs).filterMap
          (fun p => if p.2.distance < 1 - thr then some (sourceBlock p.1 p.2) else none)) ∧
    buildContext (7 / 10) c7Hits = "[Source 1: a.txt]\nfoo\n" ∧
    buildContext (7 / 10) c7Hits.reverse = "[Source 2: a.txt]\nfoo\n" := by
  refine ⟨?_, ?_, ?_⟩
  · intro thr i docs
    induction docs generalizing i with
    | nil => rfl
    | cons d ds ih =>
      simp only [buildParts, List.enumFrom, List.filterMap_cons, ih]
      by_cases h : d.distance < 1 - thr
      · rw [if_pos h, if_pos h]; rfl
      · rw [if_neg h, if_neg h]; rfl
  · have h1 : ((1 : ℚ) / 10 < 1 - 7 / 10) := by norm_num
    have h2 : ¬((1 : ℚ) / 2 < 1 - 7 / 10) := by norm_num
    unfold buildContext
    rw [if_neg (by simp [c7Hits] : ¬(c7Hits = []))]
    show String.intercalate "\n---\n" (buildParts (7 / 10) 1 c7Hits) = _
    unfold c7Hits
    simp only [buildParts]
    rw [if_pos h1, if_neg h2]
    rfl
  · have h1 : ((1 : ℚ) / 10 < 1 - 7 / 10) := by norm_num
    have h2 : ¬((1 : ℚ) / 2 < 1 - 7 / 10) := by norm_num
    unfold buildContext
    rw [if_neg (by simp [c7Hits] : ¬(c7Hits.reverse = []))]
    show String.intercalate "\n---\n" (buildParts (7 / 10) 1 c7Hits.reverse) = _
    rw [show c7Hits.reverse
          = [ { content := "bar", metadata := [("source", "b.txt")], distance := 1 / 2, id := "h2" }
            , { content := "foo", metadata := [("source", "a.txt")], distance := 1 / 10, id := "h1" } ]
        from rfl]
    simp only [buildParts]
    rw [if_neg h2, if_pos h1]
    rfl

/-- Rounding an integer changes nothing. -/
lemma roundHalfEven_intCast (z : ℤ) : roundHalfEven (z : ℚ) = z := by
  unfold roundHalfEven
  norm_num [Int.floor_intCast]

/-- Round-half-even never drops below an integer lower bound. -/
lemma le_roundHalfEven {A : ℤ} {q : ℚ} (h : (A : ℚ) ≤ q) : A ≤ roundHalfEven q := by
  unfold roundHalfEven
  have hfl : A ≤ ⌊q⌋ := Int.le_floor.mpr h
  split_ifs <;> omega

/-- Round-half-even never exceeds an integer upper bound. -/
lemma roundHalfEven_le {B : ℤ} {q : ℚ} (h : q ≤ (B : ℚ)) : roundHalfEven q ≤ B := by
  unfold roundHalfEven
  have hfl : ⌊q⌋ ≤ B := by
    have h2 := Int.floor_le_floor h
    simpa [Int.floor_intCast] using h2
  have hfq : (⌊q⌋ : ℚ) ≤ q := Int.floor_le q
  split_ifs with h1 h2 h3
  · exact hfl
  · have hq : (⌊q⌋ : ℚ) < q := by linarith
    have : ⌊q⌋ < B := by
      by_contra hc
      push_neg at hc
      have : (B : ℚ) ≤ (⌊q⌋ : ℚ) := by exact_mod_cast hc
      linarith
    omega
  · exact hfl
  · have hq : (⌊q⌋ : ℚ) < q := by
      push_neg at h1
      linarith
    have : ⌊q⌋ < B := by
      by_contra hc
      push_neg at hc
      have : (B : ℚ) ≤ (⌊q⌋ : ℚ) := by exact_mod_cast hc
      linarith
    omega

/-- Two-decimal rounding keeps values of `[-1, 1]` in `[-1, 1]`. -/
lemma round2_bounds {q : ℚ} (h1 : -1 ≤ q) (h2 : q ≤ 1) :
    -1 ≤ round2 q ∧ round2 q ≤ 1 := by
  unfold round2
  constructor
  · rw [le_div_iff₀ (by norm_num : (0 : ℚ) < 100)]
    have h := le_roundHalfEven (A := -100) (q := 100 * q) (by push_cast; linarith)
    have : ((-100 : ℤ) : ℚ) ≤ (roundHalfEven (100 * q) : ℚ) := by exact_mod_cast h
    push_cast at this ⊢
    linarith
  · rw [div_le_iff₀ (by norm_num : (0 : ℚ) < 100)]
    have h := roundHalfEven_le (B := 100) (q := 100 * q) (by push_cast; linarith)
    have : (roundHalfEven (100 * q) : ℚ) ≤ ((100 : ℤ) : ℚ) := by exact_mod_cast h
    push_cast at this ⊢
    linarith

/-- C2 counterexample: a single hit at the admissible distance 2 yields
confidence `-1`, which is negative — outside the claimed range `[0, 1]`. -/
theorem c2_confidence_below_zero :
    calcConfidence [c2Hit] = -1 ∧ calcConfidence [c2Hit] < 0 := by
  have h : calcConfidence [c2Hit] = -1 := by
    unfold calcConfidence
    rw [if_neg (by simp)]
    have havg : ((([c2Hit].take 3).map (fun d => 1 - d.distance)).sum
        / (([c2Hit].take 3).length : ℚ)) = -1 := by
      show ((1 - c2Hit.distance + 0) / ((1 : ℕ) : ℚ)) = -1
      rw [show c2Hit.distance = 2 from rfl]
      norm_num
    rw [havg]
    unfold round2
    rw [show (100 : ℚ) * (-1) = ((-100 : ℤ) : ℚ) by norm_num, roundHalfEven_intCast]
    norm_num
  exact ⟨h, by rw [h]; norm_num⟩

/-- C2 amended: for hits with distances in `[0, 2]` the confidence lies in
`[-1, 1]` (it drops below 0 exactly when average similarity does, which
distances above 1 allow); the empty hit list scores exactly 0. -/
theorem c2_confidence_bounds :
    (∀ docs : List Hit, docs ≠ [] →
      (∀ d ∈ docs, 0 ≤ d.distance ∧ d.distance ≤ 2) →
      -1 ≤ calcConfidence docs ∧ calcConfidence docs ≤ 1) ∧
    calcConfidence [] = 0 := by
  constructor
  · intro docs hne hb
    unfold calcConfidence
    rw [if_neg hne]
    have htne : docs.take 3 ≠ [] := by
      cases docs with
      | nil => exact absurd rfl hne
      | cons a l => simp
    have hlenpos : 0 < ((docs.take 3).length : ℚ) := by
      have : 0 < (docs.take 3).length := List.length_pos.mpr htne
      exact_mod_cast this
    have hmem : ∀ x ∈ (docs.take 3).map (fun d => 1 - d.distance), -1 ≤ x ∧ x ≤ 1 := by
      intro x hx
      rcases List.mem_map.mp hx with ⟨d, hd, rfl⟩
      have hdb := hb d (List.take_subset _ _ hd)
      exact ⟨by linarith [hdb.2], by linarith [hdb.1]⟩
    have hsum_ub : ((docs.take 3).map (fun d => 1 - d.distance)).sum
        ≤ ((docs.take 3).length : ℚ) := by
      have h := List.sum_le_card_nsmul ((docs.take 3).map (fun d => 1 - d.distance)) 1
        (fun x hx => (hmem x hx).2)
      simpa [List.length_map, nsmul_eq_mul] using h
    have hsum_lb : -(((docs.take 3).length : ℚ))
        ≤ ((docs.take 3).map (fun d => 1 - d.distance)).sum := by
      have h := List.card_nsmul_le_sum ((docs.take 3).map (fun d => 1 - d.distance)) (-1)
        (fun x hx => (hmem x hx).1)
      simpa [List.length_map, nsmul_eq_mul] using h
    have havg_ub : ((docs.take 3).map (fun d => 1 - d.distance)).sum
        / ((docs.take 3).length : ℚ) ≤ 1 := by
      rw [div_le_one hlenpos]
      exact hsum_ub
    have havg_lb : -1 ≤ ((docs.take 3).map (fun d => 1 - d.distance)).sum
        / ((docs.take 3).length : ℚ) := by
      rw [le_div_iff₀ hlenpos]
      linarith
    exact round2_bounds havg_lb havg_ub
  · rfl

/-- C2 amended witness: the single hit `c3Hit` has distance `3/10 ∈ [0,2]`
and its confidence indeed lies in `[-1, 1]`. -/
theorem c2_confidence_bounds_witness :
    ([c3Hit] : List Hit) ≠ [] ∧
    (-1 ≤ calcConfidence [c3Hit] ∧ calcConfidence [c3Hit] ≤ 1) :=
  ⟨by simp,
   c2_confidence_bounds.1 [c3Hit] (by simp)
     (by
       intro d hd
       rw [List.mem_singleton.mp hd, show c3Hit.distance = 3 / 10 from rfl]
       norm_num)⟩

/-- C6 counterexample: a search failure surfaces from `query` as the raw
underlying exception (the `except` block just re-raises), not as any
`RAGQueryError` wrapper. -/
theorem c6_raw_error_counterexample :
    RAGEngine.query "q" (.error (.searchError "boom")) genOk (7 / 10) 1
      = .error (.searchError "boom") ∧
    (PyExn.searchError "boom").isRAGQueryError = false :=
  ⟨rfl, rfl⟩

/-- C6 amended: failures of the search step and of the generation step
propagate out of `RAGEngine.query` as the raw underlying error value,
unchanged — nothing is wrapped. -/
theorem c6_failures_propagate_unwrapped :
    (∀ (q : String) (e : PyExn) (gen : String → String → Except PyExn GenOut) (thr t : ℚ),
        RAGEngine.query q (.error e) gen thr t = .error e) ∧
    (∀ (q : String) (docs : List Hit) (e : PyExn) (thr t : ℚ),
        RAGEngine.query q (.ok docs) (fun _ _ => .error e) thr t = .error e) :=
  ⟨fun _ _ _ _ _ => rfl, fun _ _ _ _ _ => rfl⟩

/-- Writing a key and reading it back yields the written value. -/
lemma getKey?_setKey_self (m : List (String × α)) (k : String) (v : α) :
    getKey? (setKey m k v) k = some v := by
  induction m with
  | nil => simp [setKey, getKey?]
  | cons p rest ih =>
    obtain ⟨k', v'⟩ := p
    by_cases h : k' = k
    · simp [setKey, h, getKey?]
    · simp only [setKey, if_neg h]
      simpa [getKey?, List.find?_cons, h] using ih

/-- C9: a `limit` of 0 is falsy in Python, so `get_history` (and with it
`get_formatted_history`) ignores it and returns the entire stored
history, not the empty list — exactly as if no limit had been given. -/
theorem c9_limit_zero_returns_full_history (st : MemState) (sid : String)
    (h : lookupD st.history sid [] ≠ []) :
    (getHistory st sid (some 0)).1 = lookupD st.history sid [] ∧
    (getHistory st sid (some 0)).1 = (getHistory st sid none).1 ∧
    (getFormattedHistory st sid (some 0)).1 = (getFormattedHistory st sid none).1 ∧
    (getHistory st sid (some 0)).1 ≠ [] := by
  have h0 : (getHistory st sid (some 0)).1 = lookupD st.history sid [] := by
    simp [getHistory, limitTruthy]
  have hn : (getHistory st sid none).1 = lookupD st.history sid [] := by
    simp [getHistory, limitTruthy]
  refine ⟨h0, by rw [h0, hn], ?_, by rw [h0]; exact h⟩
  simp only [getFormattedHistory, h0, hn]

/-- C9 witness: on `c9State`'s two-message session `s1`, limit 0 returns
both messages. -/
theorem c9_limit_zero_returns_full_history_witness :
    (getHistory c9State "s1" (some 0)).1 = lookupD c9State.history "s1" [] ∧
    (getHistory c9State "s1" (some 0)).1 = (getHistory c9State "s1" none).1 ∧
    (getFormattedHistory c9State "s1" (some 0)).1
      = (getFormattedHistory c9State "s1" none).1 ∧
    (getHistory c9State "s1" (some 0)).1 ≠ [] :=
  c9_limit_zero_returns_full_history c9State "s1" (by decide)

/-- C4 counterexample: with `max_turns = 0` the claimed bound
`len(history) ≤ 2·0 = 0` fails after a single append — the trim slice
`[-0:]` is Python for "the whole list", so nothing is ever trimmed. -/
theorem c4_maxturns_zero_counterexample :
    (lookupD (addMessage 0 0 ⟨[], []⟩ "s" "user" "hi" []).history "s" []).length = 1 ∧
    ¬((lookupD (addMessage 0 0 ⟨[], []⟩ "s" "user" "hi" []).history "s" []).length ≤ 2 * 0) := by
  decide

/-- C4 amended: for `max_turns = N ≥ 1`, after any single append the
retained history is the last `min len (2N)` entries of the old history
plus the new message — so at most `2N` entries, oldest dropped first — and
history reads leave the state untouched. -/
theorem c4_history_bound_after_append (now : ℤ) (N : ℕ) (st : MemState)
    (sid role content : String) (md : List (String × String)) (l : List Msg)
    (hN : 1 ≤ N)
    (hl : l = lookupD st.history sid []
        ++ [{ role := role, content := content, timestamp := now, metadata := md }]) :
    lookupD (addMessage now N st sid role content md).history sid []
      = l.drop (l.length - min l.length (2 * N)) ∧
    (lookupD (addMessage now N st sid role content md).history sid []).length ≤ 2 * N ∧
    (∀ limit, (getHistory st sid limit).2 = st) := by
  have hhist : (addMessage now N st sid role content md).history
      = setKey st.history sid (if N * 2 < l.length then pySliceLastNeg (N * 2) l else l) := by
    simp only [addMessage, hl]
  have hget : lookupD (addMessage now N st sid role content md).history sid []
      = (if N * 2 < l.length then pySliceLastNeg (N * 2) l else l) := by
    rw [hhist]
    simp [lookupD, getKey?_setKey_self]
  by_cases hc : N * 2 < l.length
  · have hslice : pySliceLastNeg (N * 2) l = l.drop (l.length - N * 2) := by
      unfold pySliceLastNeg
      rw [if_neg (by omega)]
    have hmain : lookupD (addMessage now N st sid role content md).history sid []
        = l.drop (l.length - min l.length (2 * N)) := by
      rw [hget, if_pos hc, hslice]
      congr 1
      omega
    refine ⟨hmain, ?_, fun _ => rfl⟩
    rw [hmain, List.length_drop]
    omega
  · have hmain : lookupD (addMessage now N st sid role content md).history sid []
        = l.drop (l.length - min l.length (2 * N)) := by
      rw [hget, if_neg hc]
      rw [show l.length - min l.length (2 * N) = 0 by omega, List.drop_zero]
    refine ⟨hmain, ?_, fun _ => rfl⟩
    rw [hmain, List.length_drop]
    omega

/-- C4 amended witness: appending a third message to `c9State`'s
two-message session with `max_turns = 1` retains exactly the last two
messages. -/
theorem c4_history_bound_after_append_witness :
    lookupD (addMessage 9 1 c9State "s1" "user" "more" []).history "s1" []
      = (lookupD c9State.history "s1" [] ++ [c4NewMsg]).drop
          ((lookupD c9State.history "s1" [] ++ [c4NewMsg]).length
            - min (lookupD c9State.history "s1" [] ++ [c4NewMsg]).length (2 * 1)) ∧
    (lookupD (addMessage 9 1 c9State "s1" "user" "more" []).history "s1" []).length ≤ 2 * 1 ∧
    (getHistory c9State "s1" (some 5)).2 = c9State :=
  ⟨(c4_history_bound_after_append 9 1 c9State "s1" "user" "more" [] _ (by decide) rfl).1,
   (c4_history_bound_after_append 9 1 c9State "s1" "user" "more" [] _ (by decide) rfl).2.1,
   (c4_history_bound_after_append 9 1 c9State "s1" "user" "more" [] _ (by decide) rfl).2.2 (some 5)⟩

/-- Every key deleted by the `∉ ex` filter is gone from the dictionary. -/
lemma getKey?_filter_notMem (l : List (String × α)) (ex : List String)
    (sid : String) (h : sid ∈ ex) :
    getKey? (l.filter (fun p => decide (p.1 ∉ ex))) sid = none := by
  unfold getKey?
  rw [List.find?_eq_none.mpr]
  · rfl
  · intro p hp
    rcases List.mem_filter.mp hp with ⟨_, hpex⟩
    have hnotin : p.1 ∉ ex := of_decide_eq_true hpex
    simp only [decide_eq_true_eq]
    intro he
    exact hnotin (he ▸ h)

/-- C5 counterexample: the sweep removes the one expired session of
`c5State` but returns `None` (the Python function has no `return`), not
the removal count 1 the claim states. -/
theorem c5_sweep_returns_none_counterexample :
    (cleanupExpiredSessions 100 30 c5State).2 = none ∧
    (cleanupExpiredSessions 100 30 c5State).2 ≠ some 1 ∧
    c5State.sessions.length - (cleanupExpiredSessions 100 30 c5State).1.sessions.length = 1 := by
  decide

/-- C5 amended: one sweep removes exactly the sessions idle strictly
longer than the timeout, deletes their histories with them, and returns no
count (only logs it); immediately afterwards nothing is expired, so a
second sweep removes zero sessions and leaves the state unchanged. -/
theorem c5_sweep_removes_expired_only (now timeout : ℤ) (st : MemState)
    (hnd : (st.sessions.map Prod.fst).Nodup) :
    (cleanupExpiredSessions now timeout st).1.sessions
      = st.sessions.filter (fun p => decide (now - p.2.last_activity ≤ timeout)) ∧
    (∀ sid ∈ expiredSids now timeout st,
        getKey? (cleanupExpiredSessions now timeout st).1.sessions sid = none ∧
        getKey? (cleanupExpiredSessions now timeout st).1.history sid = none) ∧
    expiredSids now timeout (cleanupExpiredSessions now timeout st).1 = [] ∧
    (cleanupExpiredSessions now timeout (cleanupExpiredSessions now timeout st).1).1
      = (cleanupExpiredSessions now timeout st).1 := by
  have hiff : ∀ p ∈ st.sessions,
      (p.1 ∈ expiredSids now timeout st ↔ timeout < now - p.2.last_activity) := by
    intro p hp
    constructor
    · intro hmem
      rcases List.mem_map.mp hmem with ⟨q, hq, hq1⟩
      rcases List.mem_filter.mp hq with ⟨hqmem, hqcond⟩
      have hqp : q = p := List.inj_on_of_nodup_map hnd hqmem hp hq1
      rw [← hqp]
      exact of_decide_eq_true hqcond
    · intro hc
      exact List.mem_map.mpr
        ⟨p, List.mem_filter.mpr ⟨hp, by simpa using hc⟩, rfl⟩
  have hsessions : (cleanupExpiredSessions now timeout st).1.sessions
      = st.sessions.filter (fun p => decide (now - p.2.last_activity ≤ timeout)) := by
    show st.sessions.filter (fun p => decide (p.1 ∉ expiredSids now timeout st))
      = st.sessions.filter (fun p => decide (now - p.2.last_activity ≤ timeout))
    apply List.filter_congr
    intro p hp
    rw [decide_eq_decide]
    rw [not_iff_comm.mp (Iff.symm ((hiff p hp).trans (Iff.symm not_le)))]
  have hexp : expiredSids now timeout (cleanupExpiredSessions now timeout st).1 = [] := by
    unfold expiredSids
    rw [show ((cleanupExpiredSessions now timeout st).1.sessions.filter
          (fun p => decide (timeout < now - p.2.last_activity))) = [] from ?_]
    · rfl
    · rw [List.filter_eq_nil_iff]
      intro p hp
      rw [hsessions] at hp
      rcases List.mem_filter.mp hp with ⟨_, hcond⟩
      have : now - p.2.last_activity ≤ timeout := of_decide_eq_true hcond
      simp only [decide_eq_true_eq, not_lt]
      exact this
  refine ⟨hsessions, ?_, hexp, ?_⟩
  · intro sid hsid
    exact ⟨getKey?_filter_notMem _ _ _ hsid, getKey?_filter_notMem _ _ _ hsid⟩
  · show ({ sessions := (cleanupExpiredSessions now timeout st).1.sessions.filter _
            history := (cleanupExpiredSessions now timeout st).1.history.filter _ } : MemState)
      = (cleanupExpiredSessions now timeout st).1
    rw [MemState.mk.injEq]
    constructor
    · rw [List.filter_eq_self.mpr]
      intro p _
      rw [hexp]
      simp
    · rw [List.filter_eq_self.mpr]
      intro p _
      rw [hexp]
      simp

/-- C5 amended witness: sweeping `c5State` at minute 100 with a 30-minute
timeout removes session `old` (idle 100 min) and keeps `new` (idle 10
min); its history is gone and nothing is expired afterwards. -/
theorem c5_sweep_removes_expired_only_witness :
    (cleanupExpiredSessions 100 30 c5State).1.sessions
      = c5State.sessions.filter (fun p => decide (100 - p.2.last_activity ≤ 30)) ∧
    getKey? (cleanupExpiredSessions 100 30 c5State).1.history "old" = none ∧
    expiredSids 100 30 (cleanupExpiredSessions 100 30 c5State).1 = [] :=
  ⟨(c5_sweep_removes_expired_only 100 30 c5State (by decide)).1,
   ((c5_sweep_removes_expired_only 100 30 c5State (by decide)).2.1 "old" (by decide)).2,
   (c5_sweep_removes_expired_only 100 30 c5State (by decide)).2.2.1⟩

/-- Splitting an `Option`-valued `mapM` of a post-processed computation
into the underlying `mapM` plus a pointwise rendering over `zip`. -/
lemma mapM_option_map {α β γ : Type} (f : α → Option β) (g : α → β → γ) :
    ∀ (l : List α) (res : List γ),
      l.mapM (fun a => (f a).map (g a)) = some res →
      ∃ bs : List β, l.mapM f = some bs ∧ bs.length = l.length ∧
        res = (l.zip bs).map (fun p => g p.1 p.2) := by
  intro l
  induction l with
  | nil =>
    intro res h
    rw [List.mapM_nil] at h
    simp only [pure, Option.some.injEq] at h
    exact ⟨[], by rw [List.mapM_nil]; rfl, rfl, by simp [← h]⟩
  | cons a l ih =>
    intro res h
    rw [List.mapM_cons] at h
    cases hfa : f a with
    | none => rw [hfa] at h; simp at h
    | some b =>
      rw [hfa] at h
      cases hml : l.mapM (fun a => (f a).map (g a)) with
      | none => rw [hml] at h; simp at h
      | some rs =>
        rw [hml] at h
        have h' : g a b :: rs = res := by simpa using h
        rcases ih rs hml with ⟨bs, hbs, hlen, hrs⟩
        refine ⟨b :: bs, ?_, by simp [hlen], ?_⟩
        · rw [List.mapM_cons, hfa, hbs]; rfl
        · rw [← h', hrs]; rfl

/-- The chunk indices of one segment's chunks are `0, 1, …`: the segment's
own enumeration. -/
lemma partChunks_indices (doc : Document) (fn : String) (part : Part)
    (cs : List (List Char)) :
    (partChunks doc fn part cs).map (fun c => c.metadata.chunk_index)
      = List.range cs.length := by
  unfold partChunks
  rw [List.map_map]
  exact List.enum_map_fst cs

/-- C10: `chunk_document` numbers chunks from 0 within each segment
(`chunk_index` is the position in that segment's own split), so indices
restart per segment; on the two-page document `c10Doc` both chunks carry
`("doc.pdf", 0)` — the `(source, chunk_index)` pair is not unique within a
document. -/
theorem c10_chunk_index_restarts_per_segment :
    (∀ (size ov fuel : ℕ) (doc : Document) (fn : String) (chunks : List Chunk),
        chunkDocument size ov fuel doc fn = some chunks →
        ∃ css : List (List (List Char)),
          doc.content.mapM (fun p => splitText size ov p.text fuel) = some css ∧
          chunks.map (fun c => c.metadata.chunk_index)
            = (css.map (fun cs => List.range cs.length)).flatten ∧
          ∀ c ∈ chunks, c.metadata.source = fn) ∧
    ((chunkDocument 1000 200 0 c10Doc "doc.pdf").getD []).map
        (fun c => (c.metadata.source, c.metadata.chunk_index))
      = [("doc.pdf", 0), ("doc.pdf", 0)] ∧
    ¬(((chunkDocument 1000 200 0 c10Doc "doc.pdf").getD []).map
        (fun c => (c.metadata.source, c.metadata.chunk_index))).Nodup := by
  refine ⟨?_, by decide, by decide⟩
  intro size ov fuel doc fn chunks h
  unfold chunkDocument at h
  rcases Option.map_eq_some'.mp h with ⟨pcs, hpcs, hflat⟩
  rcases mapM_option_map (fun p => splitText size ov p.text fuel)
      (fun p cs => partChunks doc fn p cs) doc.content pcs hpcs with ⟨css, hcss, hlen, hres⟩
  refine ⟨css, hcss, ?_, ?_⟩
  · rw [← hflat, hres, List.map_flatten, List.map_map]
    have hstep : (doc.content.zip css).map
          ((fun l => l.map (fun c => c.metadata.chunk_index))
            ∘ (fun p => partChunks doc fn p.1 p.2))
        = (doc.content.zip css).map (fun p => List.range p.2.length) := by
      apply List.map_congr_left
      intro p _
      exact partChunks_indices doc fn p.1 p.2
    rw [hstep]
    have hsnd : (doc.content.zip css).map (fun p => List.range p.2.length)
        = ((doc.content.zip css).map Prod.snd).map (fun cs => List.range cs.length) := by
      rw [List.map_map]; rfl
    rw [hsnd, List.map_snd_zip _ _ (le_of_eq hlen)]
  · rw [← hflat, hres]
    intro c hc
    rcases List.mem_flatten.mp hc with ⟨piece, hpiece, hcp⟩
    rcases List.mem_map.mp hpiece with ⟨pr, _, hpr⟩
    rw [← hpr] at hcp
    rcases List.mem_map.mp hcp with ⟨q, _, hq⟩
    rw [← hq]

/-- C10 witness: on the two-page `c10Doc` the produced chunks are
`c10Chunks`, whose index lists restart at 0 for the second page. -/
theorem c10_chunk_index_restarts_per_segment_witness :
    ∃ css : List (List (List Char)),
      c10Doc.content.mapM (fun p => splitText 1000 200 p.text 0) = some css ∧
      c10Chunks.map (fun c => c.metadata.chunk_index)
        = (css.map (fun cs => List.range cs.length)).flatten ∧
      ∀ c ∈ c10Chunks, c.metadata.source = "doc.pdf" :=
  c10_chunk_index_restarts_per_segment.1 1000 200 0 c10Doc "doc.pdf" c10Chunks (by decide)

end ChatbotCore
